import Mathlib

/-!
Verification of the token lifecycle and revocation subsystem of the
keystone identity service.

The token persistence backend itself (the `keystone.token` package: the
SQL and key-value drivers, the persistence manager and the provider) is
not part of the source tree under verification; only its test suites
(`keystone/tests/unit/token/test_backends.py`, `keystone/tests/test_backend_kvs.py`)
are present.  The definitions below are therefore modelled from the
specification (sections 3, 4 and 6 of the spec), with the behaviour pinned
down wherever the in-tree tests exercise it.  Timestamps are natural
numbers, the opaque token payload is a string, and the configurable digest
(md5 / sha256) is an explicit function parameter.
-/

namespace Keystone

/-- Modelled from the spec: the configurable hash algorithm for PKI-style
token ids (`hash_algorithm`, md5 by default, switchable to sha256). -/
inductive HashAlg
  | md5
  | sha256
deriving DecidableEq, Repr

/-- A digest function: for each configured algorithm, a map from the raw
token id to its hex digest.  Kept abstract so that theorems hold for any
actual digest implementation. -/
abbrev DigestFn := HashAlg → String → String

/-- Modelled from the spec: the configuration the token subsystem reads,
namely the default token TTL and the revocation hash algorithm. -/
structure Config where
  ttl : Nat
  hashAlgorithm : HashAlg
deriving DecidableEq, Repr

/-- Modelled from the spec: the practical key-length limit beyond which a
token id is PKI-style and is stored under its digest rather than itself. -/
def pkiIdThreshold : Nat := 64

/-- A token id is PKI-style (long, certificate-signed) when it exceeds the
practical key-length limit. -/
def isPkiTokenId (id : String) : Bool := decide (pkiIdThreshold < id.length)

/-- Modelled from the spec: the storage key of a token.  For PKI-style
(long) ids it is the configured digest of the raw id; for UUID-style ids
the hash equals the id itself. -/
def hashTokenId (cfg : Config) (digest : DigestFn) (id : String) : String :=
  if isPkiTokenId id then digest cfg.hashAlgorithm id else id

/-- Modelled from the spec: the data supplied by the caller of
`create_token` — the user, optional tenant and trust scope, an optional
expiry, the audit id carried in the token data, and the opaque payload. -/
structure TokenData where
  user_id : String
  tenant : Option String
  trust_id : Option String
  expires : Option Nat
  audit_id : String
  payload : String
deriving DecidableEq, Repr

/-- Modelled from the spec (section 3): a stored token record.
`id` is the canonical external identifier, `id_hash` the derived storage
key; `expires` is optional in the record type although `create_token`
always normalizes it to a concrete value. -/
structure TokenRecord where
  id : String
  id_hash : String
  user_id : String
  tenant : Option String
  trust_id : Option String
  expires : Option Nat
  audit_id : String
  payload : String
deriving DecidableEq, Repr

/-- Modelled from the spec (section 3): a revoked-token entry
`{id (the id_hash), audit_id, expires}` produced when a token is deleted. -/
structure RevokedEntry where
  id : String
  audit_id : String
  expires : Option Nat
deriving DecidableEq, Repr

/-- Modelled from the spec (sections 3 and 6): the persisted state of the
token backend — the token records keyed by `id_hash`, the per-user index
of `(token_id, expires)` pairs, and the revocation entries. -/
structure Store where
  tokens : List (String × TokenRecord)
  userIndex : List (String × List (String × Option Nat))
  revocations : List RevokedEntry
deriving DecidableEq, Repr

/-- Modelled from the spec (section 7): the error taxonomy the token
operations surface. -/
inductive TokenError
  | tokenNotFound
  | conflict
  | notImplemented
deriving DecidableEq, Repr

/-- The empty backend state. -/
def emptyStore : Store := ⟨[], [], []⟩

/-- Look up the first entry of an association list of user-index entries. -/
def getEntry (uid : String) :
    List (String × List (String × Option Nat)) → List (String × Option Nat)
  | [] => []
  | (k, v) :: rest => if k == uid then v else getEntry uid rest

/-- Replace the first user-index entry for `uid` (append one when absent). -/
def setEntry (uid : String) (l : List (String × Option Nat)) :
    List (String × List (String × Option Nat)) →
    List (String × List (String × Option Nat))
  | [] => [(uid, l)]
  | (k, v) :: rest =>
    if k == uid then (k, l) :: rest else (k, v) :: setEntry uid l rest

/-- The user token index entry for `uid` (empty when the user has none). -/
def userTokenList (s : Store) (uid : String) : List (String × Option Nat) :=
  getEntry uid s.userIndex

/-- Write the user token index entry for `uid`. -/
def setUserTokenList (s : Store) (uid : String)
    (l : List (String × Option Nat)) : Store :=
  { s with userIndex := setEntry uid l s.userIndex }

/-- Look up a token record by its storage key. -/
def lookupToken (s : Store) (key : String) : Option TokenRecord :=
  (s.tokens.find? (fun p => p.1 == key)).map (fun p => p.2)

/-- An optional expiry is strictly in the past at `now`.  A null expiry is
treated as the far-future sentinel and is never past. -/
def expiryPast (now : Nat) : Option Nat → Bool
  | none => false
  | some e => decide (e < now)

/-- An optional expiry has not yet been reached at `now` (strict: a token
whose expiry equals `now` is no longer live). -/
def unexpired (now : Nat) : Option Nat → Bool
  | none => true
  | some e => decide (now < e)

/-- Modelled from the spec: the default expiry assigned when the caller
supplies none — the configurable TTL added to the current time. -/
def defaultExpires (cfg : Config) (now : Nat) : Nat := now + cfg.ttl

/-- Modelled from the spec: a null or missing `expires` is normalized at
creation time to the default TTL-based expiry. -/
def normalizeExpires (cfg : Config) (now : Nat) : Option Nat → Option Nat
  | some e => some e
  | none => some (defaultExpires cfg now)

/-- The ids carried by the persisted revocation entries. -/
def revokedIds (s : Store) : List String := s.revocations.map (fun e => e.id)

/-- Modelled from the kvs backend test (`test_cleanup_user_index_on_create`):
a user-index pair survives the rewrite performed by `create_token` when its
recorded expiry is not already past and its token has not been revoked. -/
def keepIndexEntry (cfg : Config) (digest : DigestFn) (s : Store) (now : Nat)
    (q : String × Option Nat) : Bool :=
  !(expiryPast now q.2) && !((revokedIds s).contains (hashTokenId cfg digest q.1))

/-- The record built by `create_token` from the caller's data. -/
def mkTokenRecord (cfg : Config) (digest : DigestFn) (now : Nat)
    (tid : String) (d : TokenData) : TokenRecord :=
  { id := tid
    id_hash := hashTokenId cfg digest tid
    user_id := d.user_id
    tenant := d.tenant
    trust_id := d.trust_id
    expires := normalizeExpires cfg now d.expires
    audit_id := d.audit_id
    payload := d.payload }

/-- The state change of a successful `create_token`: store the record under
its hash, and rewrite the user's index entry by pruning pairs that are
already expired or whose token has been revoked, preserving the order of
the survivors, and appending the new token's pair. -/
def insertToken (cfg : Config) (digest : DigestFn) (now : Nat)
    (tid : String) (d : TokenData) (s : Store) : Store :=
  let r := mkTokenRecord cfg digest now tid d
  let pruned := (userTokenList s d.user_id).filter (keepIndexEntry cfg digest s now)
  setUserTokenList { s with tokens := s.tokens ++ [(r.id_hash, r)] }
    d.user_id (pruned ++ [(tid, r.expires)])

/-- Modelled from the spec (section 4.1): `create_token` fails with
`Conflict` when the storage key is occupied, otherwise normalizes the
expiry, stores the record and updates the user index. -/
def createToken (cfg : Config) (digest : DigestFn) (now : Nat)
    (tid : String) (d : TokenData) (s : Store) :
    Except TokenError (TokenRecord × Store) :=
  if (lookupToken s (hashTokenId cfg digest tid)).isSome then
    .error .conflict
  else
    .ok (mkTokenRecord cfg digest now tid d, insertToken cfg digest now tid d s)

/-- Modelled from the spec (section 4.1): `get_token` returns the stored
record or fails with `TokenNotFound`. -/
def getToken (cfg : Config) (digest : DigestFn) (tid : String) (s : Store) :
    Except TokenError TokenRecord :=
  match lookupToken s (hashTokenId cfg digest tid) with
  | some r => .ok r
  | none => .error .tokenNotFound

/-- Remove the token stored under `key`. -/
def removeStoredToken (s : Store) (key : String) : Store :=
  { s with tokens := s.tokens.filter (fun p => p.1 != key) }

/-- Modelled from the spec (section 4.2): on delete, remove the matching
pair by token id from the user's index list, preserving the relative order
of the survivors. -/
def removeIndexEntry (s : Store) (uid tid : String) : Store :=
  setUserTokenList s uid ((userTokenList s uid).filter (fun q => q.1 != tid))

/-- The revocation entry recorded when a token is deleted: its id is the
token's `id_hash`, and it carries the token's audit id and expiry. -/
def revokeEntryOf (r : TokenRecord) : RevokedEntry :=
  { id := r.id_hash, audit_id := r.audit_id, expires := r.expires }

/-- Append a revocation entry for the deleted record. -/
def appendRevocation (s : Store) (r : TokenRecord) : Store :=
  { s with revocations := s.revocations ++ [revokeEntryOf r] }

/-- Modelled from the spec (section 4.1): `delete_token` fails with
`TokenNotFound` when the id is absent; on success it removes the record,
removes the user's index pair and appends a revocation entry.  The deleted
record is also returned so that callers (and the trace semantics) can see
which token was revoked. -/
def deleteToken (cfg : Config) (digest : DigestFn) (tid : String) (s : Store) :
    Except TokenError (TokenRecord × Store) :=
  match lookupToken s (hashTokenId cfg digest tid) with
  | none => .error .tokenNotFound
  | some r =>
    .ok (r, appendRevocation
      (removeIndexEntry (removeStoredToken s (hashTokenId cfg digest tid))
        r.user_id r.id) r)

/-- Modelled from the spec (section 4.3): the persistence layer's
`list_revoked_tokens` — the persisted revocation entries whose expiry has
not yet passed (a token past its `expires` is simply gone). -/
def listRevokedTokens (now : Nat) (s : Store) : List RevokedEntry :=
  s.revocations.filter (fun e => unexpired now e.expires)

/-- A record matches a tenant filter when no filter is supplied or its
tenant scope equals the filter value. -/
def tenantMatches (filter : Option String) (r : TokenRecord) : Bool :=
  match filter with
  | none => true
  | some t => r.tenant == some t

/-- A record matches a trust filter when no filter is supplied or its
trust scope equals the filter value. -/
def trustMatches (filter : Option String) (r : TokenRecord) : Bool :=
  match filter with
  | none => true
  | some t => r.trust_id == some t

/-- Modelled from the spec (sections 4.1 and 4.2): `list_tokens` walks the
user's index, loads each referenced record, and returns the ids of the
records that exist, are unexpired as of call time, belong to the user and
match the supplied tenant/trust filters. -/
def listTokens (cfg : Config) (digest : DigestFn) (now : Nat) (uid : String)
    (tenant_id trust_id : Option String) (s : Store) : List String :=
  (userTokenList s uid).filterMap (fun q =>
    match lookupToken s (hashTokenId cfg digest q.1) with
    | none => none
    | some r =>
      if unexpired now r.expires && r.user_id == uid
          && tenantMatches tenant_id r && trustMatches trust_id r then
        some q.1
      else none)

/-- A record matches the `delete_tokens` filters: the user id and, when
supplied, the tenant and trust scopes. -/
def bulkMatches (uid : String) (tenant_id trust_id : Option String)
    (r : TokenRecord) : Bool :=
  r.user_id == uid && tenantMatches tenant_id r && trustMatches trust_id r

/-- Modelled from the spec (section 4.1): `delete_tokens` removes every
stored token matching all supplied filters, prunes their pairs from the
user indexes, and batches the corresponding revocation entries.  It never
errors; deleting zero tokens is a success. -/
def deleteTokens (uid : String) (tenant_id trust_id : Option String)
    (s : Store) : Store :=
  let victims := s.tokens.filter (fun p => bulkMatches uid tenant_id trust_id p.2)
  let victimIds := victims.map (fun p => p.2.id)
  { tokens := s.tokens.filter (fun p => !(bulkMatches uid tenant_id trust_id p.2))
    userIndex := s.userIndex.map
      (fun q => (q.1, q.2.filter (fun pr => !(victimIds.contains pr.1))))
    revocations := s.revocations ++ victims.map (fun p => revokeEntryOf p.2) }

/-- Modelled from the spec (section 4.1): the SQL backend's
`flush_expired_tokens` permanently removes the records, index pairs and
revocation entries whose expiry is strictly in the past at call time. -/
def flushExpiredTokens (now : Nat) (s : Store) : Store :=
  { tokens := s.tokens.filter (fun p => !(expiryPast now p.2.expires))
    userIndex := s.userIndex.map
      (fun q => (q.1, q.2.filter (fun pr => !(expiryPast now pr.2))))
    revocations := s.revocations.filter (fun e => !(expiryPast now e.expires)) }

/-- Modelled from the spec (section 4.1) and the kvs backend test: the KV
store lacks the flush capability and fails with `NotImplemented` rather
than silently doing nothing. -/
def kvsFlushExpiredTokens : Except TokenError Unit := .error .notImplemented

/-- Modelled from the spec (sections 4.3 and 9): the provider couples the
persisted store with the revocation-list cache, which starts cold. -/
structure ProviderState where
  store : Store
  revCache : Option (List RevokedEntry)
deriving DecidableEq, Repr

/-- Modelled from the spec (section 6): `invalidate_revocation_list`
forces recomputation on the next read. -/
def invalidateRevocationList (p : ProviderState) : ProviderState :=
  { p with revCache := none }

/-- Modelled from the spec (section 4.3): the provider's
`list_revoked_tokens` returns the cached list when one is present, and
otherwise recomputes it from the persisted entries and caches the result. -/
def providerListRevokedTokens (now : Nat) (p : ProviderState) :
    List RevokedEntry × ProviderState :=
  match p.revCache with
  | some l => (l, p)
  | none =>
    let l := listRevokedTokens now p.store
    (l, { p with revCache := some l })

/-- Modelled from the spec (section 5): a delete issued through the
manager performs the store deletion and invalidates the revocation-list
cache synchronously. -/
def managerDeleteToken (cfg : Config) (digest : DigestFn) (tid : String)
    (p : ProviderState) : Except TokenError (TokenRecord × ProviderState) :=
  match deleteToken cfg digest tid p.store with
  | .error e => .error e
  | .ok (r, st) => .ok (r, ⟨st, none⟩)

/-- A delete issued directly at the storage driver, bypassing the manager:
the store changes but the provider's cache is left untouched. -/
def driverDeleteToken (cfg : Config) (digest : DigestFn) (tid : String)
    (p : ProviderState) : Except TokenError (TokenRecord × ProviderState) :=
  match deleteToken cfg digest tid p.store with
  | .error e => .error e
  | .ok (r, st) => .ok (r, ⟨st, p.revCache⟩)

/-- The operations of the token lifecycle, each stamped with the wall
clock time at which it runs. -/
inductive Op
  | create (t : Nat) (id : String) (d : TokenData)
  | deleteMgr (t : Nat) (id : String)
  | deleteDrv (t : Nat) (id : String)
  | invalidate
  | readRevoked (t : Nat)
deriving DecidableEq, Repr

/-- The wall clock time of an operation. -/
def opTime : Op → Nat
  | .create t _ _ => t
  | .deleteMgr t _ => t
  | .deleteDrv t _ => t
  | .invalidate => 0
  | .readRevoked t => t

/-- A provider state together with the ghost log of the tokens that were
successfully created and deleted (each with the time of the event). -/
structure TraceState where
  prov : ProviderState
  creations : List (TokenRecord × Nat)
  deletions : List (TokenRecord × Nat)
deriving DecidableEq, Repr

/-- The initial state: empty store, cold cache, empty ghost logs. -/
def initState : TraceState := ⟨⟨emptyStore, none⟩, [], []⟩

/-- One step of the token lifecycle.  Failed operations leave the state
unchanged; successful creations and deletions are recorded in the ghost
logs. -/
def stepOp (cfg : Config) (digest : DigestFn) (s : TraceState) : Op → TraceState
  | .create t id d =>
    match createToken cfg digest t id d s.prov.store with
    | .ok (r, st) =>
      ⟨⟨st, s.prov.revCache⟩, s.creations ++ [(r, t)], s.deletions⟩
    | .error _ => s
  | .deleteMgr t id =>
    match managerDeleteToken cfg digest id s.prov with
    | .ok (r, p) => ⟨p, s.creations, s.deletions ++ [(r, t)]⟩
    | .error _ => s
  | .deleteDrv t id =>
    match driverDeleteToken cfg digest id s.prov with
    | .ok (r, p) => ⟨p, s.creations, s.deletions ++ [(r, t)]⟩
    | .error _ => s
  | .invalidate => ⟨invalidateRevocationList s.prov, s.creations, s.deletions⟩
  | .readRevoked t =>
    ⟨(providerListRevokedTokens t s.prov).2, s.creations, s.deletions⟩

/-- Run a sequence of operations from the initial state. -/
def runOps (cfg : Config) (digest : DigestFn) (ops : List Op) : TraceState :=
  ops.foldl (stepOp cfg digest) initState

/-- The storage keys of the ids used by the create operations of a trace. -/
def opCreateHashes (cfg : Config) (digest : DigestFn) (ops : List Op) :
    List String :=
  ops.filterMap (fun op =>
    match op with
    | .create _ id _ => some (hashTokenId cfg digest id)
    | _ => none)

/-- A deletion event happened before the deleted token's natural expiry
(a null expiry never arrives, so any deletion precedes it). -/
def deletedBeforeExpiry (d : TokenRecord × Nat) : Bool :=
  match d.1.expires with
  | none => true
  | some e => decide (d.2 < e)

/-- The store resulting from a successful `delete_token` of the record `r`
found under the hash of `tid`. -/
def deletedStore (cfg : Config) (digest : DigestFn) (tid : String)
    (s : Store) (r : TokenRecord) : Store :=
  appendRevocation
    (removeIndexEntry (removeStoredToken s (hashTokenId cfg digest tid))
      r.user_id r.id) r

theorem lookupToken_eq_none {s : Store} {key : String} :
    lookupToken s key = none ↔ ∀ p ∈ s.tokens, p.1 ≠ key := by
  unfold lookupToken
  rw [Option.map_eq_none', List.find?_eq_none]
  constructor
  · intro h p hp
    have := h p hp
    simpa using this
  · intro h p hp
    simpa using h p hp

theorem lookupToken_mem {s : Store} {key : String} {r : TokenRecord}
    (h : lookupToken s key = some r) : (key, r) ∈ s.tokens := by
  unfold lookupToken at h
  rw [Option.map_eq_some'] at h
  obtain ⟨p, hp, hpr⟩ := h
  have hmem := List.mem_of_find?_eq_some hp
  have hkey := List.find?_some hp
  obtain ⟨p1, p2⟩ := p
  simp only [beq_iff_eq] at hkey
  simp only at hpr
  subst hkey
  subst hpr
  exact hmem

theorem find?_key_of_mem_nodup {l : List (String × TokenRecord)}
    {key : String} {r : TokenRecord}
    (hnd : (l.map Prod.fst).Nodup) (hm : (key, r) ∈ l) :
    l.find? (fun p => p.1 == key) = some (key, r) := by
  induction l with
  | nil => simp at hm
  | cons p t ih =>
    rw [List.map_cons, List.nodup_cons] at hnd
    rcases List.mem_cons.mp hm with h | h
    · subst h
      have hb : ((key, r).1 == key) = true := by simp
      simp [List.find?_cons_of_pos, hb]
    · have hkt : key ∈ t.map Prod.fst :=
        List.mem_map.mpr ⟨(key, r), h, rfl⟩
      have hb : (p.1 == key) = false := by
        refine beq_eq_false_iff_ne.mpr ?_
        intro he
        apply hnd.1
        rw [he]
        exact hkt
      rw [List.find?_cons_of_neg _ (by simp [hb])]
      exact ih hnd.2 h

theorem lookupToken_of_mem_nodup {s : Store} {key : String} {r : TokenRecord}
    (hnd : (s.tokens.map Prod.fst).Nodup) (hm : (key, r) ∈ s.tokens) :
    lookupToken s key = some r := by
  unfold lookupToken
  rw [find?_key_of_mem_nodup hnd hm]
  rfl

theorem getEntry_setEntry_same (uid : String) (l : List (String × Option Nat))
    (idx : List (String × List (String × Option Nat))) :
    getEntry uid (setEntry uid l idx) = l := by
  induction idx with
  | nil => simp [setEntry, getEntry]
  | cons q rest ih =>
    obtain ⟨k, v⟩ := q
    by_cases hk : k = uid
    · simp [setEntry, getEntry, hk]
    · have hb : (k == uid) = false := by simpa using hk
      simp [setEntry, getEntry, hb, ih]

theorem getEntry_setEntry_other {uid uid' : String}
    (l : List (String × Option Nat))
    (idx : List (String × List (String × Option Nat))) (h : uid' ≠ uid) :
    getEntry uid' (setEntry uid l idx) = getEntry uid' idx := by
  have hb0 : (uid == uid') = false := by simpa using (Ne.symm h)
  induction idx with
  | nil => simp [setEntry, getEntry, hb0]
  | cons q rest ih =>
    obtain ⟨k, v⟩ := q
    by_cases hk : k = uid
    · subst hk
      simp [setEntry, getEntry, hb0]
    · have hb : (k == uid) = false := by simpa using hk
      simp [setEntry, getEntry, hb, ih]

theorem getEntry_map_filter (uid : String)
    (p : (String × Option Nat) → Bool)
    (idx : List (String × List (String × Option Nat))) :
    getEntry uid (idx.map (fun q => (q.1, q.2.filter p))) =
      (getEntry uid idx).filter p := by
  induction idx with
  | nil => simp [getEntry]
  | cons q rest ih =>
    obtain ⟨k, v⟩ := q
    by_cases hk : k = uid
    · simp [getEntry, hk]
    · have hb : (k == uid) = false := by simpa using hk
      simp [getEntry, hb, ih]

theorem filterMap_filter_congr {α β : Type} (f g : α → Option β)
    (p : α → Bool) :
    ∀ l : List α, (∀ a ∈ l, g a = f a) → (∀ a ∈ l, p a = false → f a = none) →
    (l.filter p).filterMap g = l.filterMap f := by
  intro l
  induction l with
  | nil =>
    intro _ _
    simp
  | cons a t ih =>
    intro h1 h2
    have ih' := ih (fun x hx => h1 x (List.mem_cons_of_mem _ hx))
      (fun x hx => h2 x (List.mem_cons_of_mem _ hx))
    cases hp : p a with
    | true =>
      rw [List.filter_cons_of_pos hp, List.filterMap_cons, List.filterMap_cons,
        h1 a (List.mem_cons_self _ _), ih']
    | false =>
      rw [List.filter_cons_of_neg (by simp [hp]), List.filterMap_cons,
        h2 a (List.mem_cons_self _ _) hp, ih']

theorem createToken_fresh {cfg : Config} {digest : DigestFn} {now : Nat}
    {tid : String} {d : TokenData} {s : Store}
    (h : lookupToken s (hashTokenId cfg digest tid) = none) :
    createToken cfg digest now tid d s =
      .ok (mkTokenRecord cfg digest now tid d,
        insertToken cfg digest now tid d s) := by
  unfold createToken
  rw [h]
  rfl

theorem createToken_ok_inv {cfg : Config} {digest : DigestFn} {now : Nat}
    {tid : String} {d : TokenData} {s : Store} {r : TokenRecord} {st : Store}
    (h : createToken cfg digest now tid d s = .ok (r, st)) :
    lookupToken s (hashTokenId cfg digest tid) = none ∧
    r = mkTokenRecord cfg digest now tid d ∧
    st = insertToken cfg digest now tid d s := by
  unfold createToken at h
  cases hl : lookupToken s (hashTokenId cfg digest tid) with
  | some v => rw [hl] at h; simp at h
  | none =>
    rw [hl] at h
    simp only [Option.isSome_none, Bool.false_eq_true, if_false] at h
    have := Except.ok.inj h
    exact ⟨rfl, (Prod.mk.injEq _ _ _ _ ▸ this).1.symm,
      (Prod.mk.injEq _ _ _ _ ▸ this).2.symm⟩

theorem deleteToken_some {cfg : Config} {digest : DigestFn} {tid : String}
    {s : Store} {r : TokenRecord}
    (h : lookupToken s (hashTokenId cfg digest tid) = some r) :
    deleteToken cfg digest tid s = .ok (r, deletedStore cfg digest tid s r) := by
  unfold deleteToken deletedStore
  rw [h]

theorem deleteToken_none {cfg : Config} {digest : DigestFn} {tid : String}
    {s : Store} (h : lookupToken s (hashTokenId cfg digest tid) = none) :
    deleteToken cfg digest tid s = .error .tokenNotFound := by
  unfold deleteToken
  rw [h]

theorem deleteToken_ok_inv {cfg : Config} {digest : DigestFn} {tid : String}
    {s : Store} {r : TokenRecord} {st : Store}
    (h : deleteToken cfg digest tid s = .ok (r, st)) :
    lookupToken s (hashTokenId cfg digest tid) = some r ∧
    st = deletedStore cfg digest tid s r := by
  unfold deleteToken at h
  cases hl : lookupToken s (hashTokenId cfg digest tid) with
  | none => rw [hl] at h; simp at h
  | some v =>
    rw [hl] at h
    have := Except.ok.inj h
    have hv : v = r := (Prod.mk.injEq _ _ _ _ ▸ this).1
    subst hv
    exact ⟨rfl, (Prod.mk.injEq _ _ _ _ ▸ this).2.symm⟩

theorem deletedStore_tokens (cfg : Config) (digest : DigestFn) (tid : String)
    (s : Store) (r : TokenRecord) :
    (deletedStore cfg digest tid s r).tokens =
      s.tokens.filter (fun p => p.1 != hashTokenId cfg digest tid) := rfl

theorem deletedStore_revocations (cfg : Config) (digest : DigestFn)
    (tid : String) (s : Store) (r : TokenRecord) :
    (deletedStore cfg digest tid s r).revocations =
      s.revocations ++ [revokeEntryOf r] := rfl

theorem deletedStore_userIndex (cfg : Config) (digest : DigestFn)
    (tid : String) (s : Store) (r : TokenRecord) :
    (deletedStore cfg digest tid s r).userIndex =
      setEntry r.user_id
        ((userTokenList s r.user_id).filter (fun q => q.1 != r.id))
        s.userIndex := rfl

theorem insertToken_tokens (cfg : Config) (digest : DigestFn) (now : Nat)
    (tid : String) (d : TokenData) (s : Store) :
    (insertToken cfg digest now tid d s).tokens =
      s.tokens ++ [(hashTokenId cfg digest tid, mkTokenRecord cfg digest now tid d)] := rfl

theorem insertToken_revocations (cfg : Config) (digest : DigestFn) (now : Nat)
    (tid : String) (d : TokenData) (s : Store) :
    (insertToken cfg digest now tid d s).revocations = s.revocations := rfl

theorem insertToken_userIndex (cfg : Config) (digest : DigestFn) (now : Nat)
    (tid : String) (d : TokenData) (s : Store) :
    (insertToken cfg digest now tid d s).userIndex =
      setEntry d.user_id
        ((userTokenList s d.user_id).filter (keepIndexEntry cfg digest s now)
          ++ [(tid, (mkTokenRecord cfg digest now tid d).expires)])
        s.userIndex := rfl

@[simp] theorem mkTokenRecord_id (cfg : Config) (digest : DigestFn) (now : Nat)
    (tid : String) (d : TokenData) :
    (mkTokenRecord cfg digest now tid d).id = tid := rfl

@[simp] theorem mkTokenRecord_id_hash (cfg : Config) (digest : DigestFn)
    (now : Nat) (tid : String) (d : TokenData) :
    (mkTokenRecord cfg digest now tid d).id_hash = hashTokenId cfg digest tid := rfl

@[simp] theorem mkTokenRecord_user_id (cfg : Config) (digest : DigestFn)
    (now : Nat) (tid : String) (d : TokenData) :
    (mkTokenRecord cfg digest now tid d).user_id = d.user_id := rfl

@[simp] theorem mkTokenRecord_expires (cfg : Config) (digest : DigestFn)
    (now : Nat) (tid : String) (d : TokenData) :
    (mkTokenRecord cfg digest now tid d).expires =
      normalizeExpires cfg now d.expires := rfl

theorem insertToken_userTokenList_same (cfg : Config) (digest : DigestFn)
    (now : Nat) (tid : String) (d : TokenData) (s : Store) :
    userTokenList (insertToken cfg digest now tid d s) d.user_id =
      (userTokenList s d.user_id).filter (keepIndexEntry cfg digest s now)
        ++ [(tid, (mkTokenRecord cfg digest now tid d).expires)] := by
  unfold userTokenList
  rw [insertToken_userIndex]
  exact getEntry_setEntry_same _ _ _

theorem insertToken_userTokenList_other {cfg : Config} {digest : DigestFn}
    {now : Nat} {tid : String} {d : TokenData} {s : Store} {uid : String}
    (h : uid ≠ d.user_id) :
    userTokenList (insertToken cfg digest now tid d s) uid =
      userTokenList s uid := by
  unfold userTokenList
  rw [insertToken_userIndex]
  exact getEntry_setEntry_other _ _ h

theorem deletedStore_userTokenList_same (cfg : Config) (digest : DigestFn)
    (tid : String) (s : Store) (r : TokenRecord) :
    userTokenList (deletedStore cfg digest tid s r) r.user_id =
      (userTokenList s r.user_id).filter (fun q => q.1 != r.id) := by
  unfold userTokenList
  rw [deletedStore_userIndex]
  exact getEntry_setEntry_same _ _ _

theorem deletedStore_userTokenList_other {cfg : Config} {digest : DigestFn}
    {tid : String} {s : Store} {r : TokenRecord} {uid : String}
    (h : uid ≠ r.user_id) :
    userTokenList (deletedStore cfg digest tid s r) uid =
      userTokenList s uid := by
  unfold userTokenList
  rw [deletedStore_userIndex]
  exact getEntry_setEntry_other _ _ h

theorem mem_eq_of_key_nodup {l : List (String × TokenRecord)}
    {p p' : String × TokenRecord}
    (hnd : (l.map Prod.fst).Nodup) (h1 : p ∈ l) (h2 : p' ∈ l)
    (hk : p.1 = p'.1) : p = p' :=
  List.inj_on_of_nodup_map hnd h1 h2 hk

theorem lookupToken_filtered_none {s s' : Store} {key : String}
    {q : String × TokenRecord → Bool}
    (h' : s'.tokens = s.tokens.filter q) (h : lookupToken s key = none) :
    lookupToken s' key = none := by
  rw [lookupToken_eq_none] at h ⊢
  intro p hp
  rw [h'] at hp
  exact h p (List.mem_filter.mp hp).1

theorem lookupToken_filtered_keep {s s' : Store} {key : String}
    {r : TokenRecord} {q : String × TokenRecord → Bool}
    (h' : s'.tokens = s.tokens.filter q)
    (hnd : (s.tokens.map Prod.fst).Nodup)
    (h : lookupToken s key = some r) (hq : q (key, r) = true) :
    lookupToken s' key = some r := by
  have hnd' : (s'.tokens.map Prod.fst).Nodup := by
    rw [h']
    exact hnd.sublist (List.Sublist.map _ (List.filter_sublist _))
  apply lookupToken_of_mem_nodup hnd'
  rw [h']
  exact List.mem_filter.mpr ⟨lookupToken_mem h, hq⟩

theorem lookupToken_filtered_drop {s s' : Store} {key : String}
    {r : TokenRecord} {q : String × TokenRecord → Bool}
    (h' : s'.tokens = s.tokens.filter q)
    (hnd : (s.tokens.map Prod.fst).Nodup)
    (h : lookupToken s key = some r) (hq : q (key, r) = false) :
    lookupToken s' key = none := by
  rw [lookupToken_eq_none]
  intro p hp hk
  rw [h'] at hp
  obtain ⟨hpmem, hpq⟩ := List.mem_filter.mp hp
  have hpe : p = (key, r) :=
    mem_eq_of_key_nodup hnd hpmem (lookupToken_mem h) (by rw [hk])
  rw [hpe, hq] at hpq
  exact absurd hpq (by simp)

theorem lookupToken_append {s s' : Store} {key : String} {r : TokenRecord}
    (h' : s'.tokens = s.tokens ++ [(key, r)])
    (h : lookupToken s key = none) : lookupToken s' key = some r := by
  unfold lookupToken at h ⊢
  rw [h', List.find?_append]
  rw [Option.map_eq_none'] at h
  rw [h]
  simp

theorem lookupToken_deletedStore (cfg : Config) (digest : DigestFn)
    (tid : String) (s : Store) (r : TokenRecord) :
    lookupToken (deletedStore cfg digest tid s r)
      (hashTokenId cfg digest tid) = none := by
  rw [lookupToken_eq_none]
  intro p hp
  rw [deletedStore_tokens] at hp
  have := (List.mem_filter.mp hp).2
  simpa using this

theorem past_not_unexpired {now now2 : Nat} {e : Option Nat}
    (h : expiryPast now e = true) (hle : now ≤ now2) :
    unexpired now2 e = false := by
  cases e with
  | none => simp [expiryPast] at h
  | some v =>
    simp only [expiryPast, decide_eq_true_eq] at h
    simp only [unexpired, decide_eq_false_iff_not]
    omega

theorem getEntry_mem_or_nil (uid : String)
    (idx : List (String × List (String × Option Nat))) :
    getEntry uid idx = [] ∨ (uid, getEntry uid idx) ∈ idx := by
  induction idx with
  | nil => exact Or.inl rfl
  | cons en rest ih =>
    obtain ⟨k, v⟩ := en
    by_cases hk : k = uid
    · subst hk
      right
      simp [getEntry]
    · have hb : (k == uid) = false := by simpa using hk
      rcases ih with ih | ih
      · left
        simp [getEntry, hb, ih]
      · right
        simp only [getEntry, hb]
        simp only [Bool.false_eq_true, if_false]
        exact List.mem_cons_of_mem _ ih

/-- The recorded expiry of every index pair agrees with the expiry of the
token record it points at (executable form, used to state hypotheses that
concrete witnesses can discharge by evaluation). -/
def indexExpiryAgrees (cfg : Config) (digest : DigestFn) (s : Store) : Bool :=
  s.userIndex.all (fun en => en.2.all (fun q =>
    match lookupToken s (hashTokenId cfg digest q.1) with
    | some r => r.expires == q.2
    | none => true))

theorem indexExpiryAgrees_spec {cfg : Config} {digest : DigestFn} {s : Store}
    (h : indexExpiryAgrees cfg digest s = true) :
    ∀ uid, ∀ q ∈ userTokenList s uid, ∀ r,
      lookupToken s (hashTokenId cfg digest q.1) = some r →
      r.expires = q.2 := by
  intro uid q hq r hl
  rcases getEntry_mem_or_nil uid s.userIndex with hnil | hmem
  · rw [userTokenList, hnil] at hq
    simp at hq
  · unfold indexExpiryAgrees at h
    rw [List.all_eq_true] at h
    have h2 := h _ hmem
    rw [List.all_eq_true] at h2
    have h3 := h2 q hq
    rw [hl] at h3
    simpa using h3

theorem unexpired_not_past {now t : Nat} {e : Option Nat}
    (h : unexpired now e = true) (ht : t ≤ now) : expiryPast t e = false := by
  cases e with
  | none => rfl
  | some v =>
    simp only [unexpired, decide_eq_true_eq] at h
    simp only [expiryPast, decide_eq_false_iff_not]
    omega

theorem providerListRevoked_store (t : Nat) (p : ProviderState) :
    ((providerListRevokedTokens t p).2).store = p.store := by
  cases hc : p.revCache <;> simp [providerListRevokedTokens, hc]

/-- The inductive invariant tying a reachable trace state to its ghost
logs: stored records are well keyed, every stored record was created and
not deleted, created-and-not-deleted records are stored and indexed, index
pairs point at created tokens, and the persisted revocation entries are in
one-to-one correspondence with the successful deletions. -/
structure Inv (cfg : Config) (digest : DigestFn) (now : Nat)
    (s : TraceState) : Prop where
  wfKeys : ∀ p ∈ s.prov.store.tokens,
    p.1 = hashTokenId cfg digest p.2.id ∧ p.2.id_hash = p.1
  keysNodup : (s.prov.store.tokens.map Prod.fst).Nodup
  storedNotDeleted : ∀ p ∈ s.prov.store.tokens, ∀ d ∈ s.deletions,
    d.1.id_hash ≠ p.1
  deletionsCreated : ∀ d ∈ s.deletions, ∃ c ∈ s.creations, c.1 = d.1
  creationsHash : ∀ c ∈ s.creations,
    c.1.id_hash = hashTokenId cfg digest c.1.id
  creationsNodup : (s.creations.map (fun c => c.1.id_hash)).Nodup
  storedCreated : ∀ p ∈ s.prov.store.tokens, ∃ c ∈ s.creations, c.1 = p.2
  idxComplete : ∀ p ∈ s.prov.store.tokens, unexpired now p.2.expires = true →
    (p.2.id, p.2.expires) ∈ userTokenList s.prov.store p.2.user_id
  idxSound : ∀ uid, ∀ q ∈ userTokenList s.prov.store uid,
    ∃ c ∈ s.creations, c.1.id = q.1
  liveStored : ∀ c ∈ s.creations,
    (∀ d ∈ s.deletions, d.1.id_hash ≠ c.1.id_hash) →
    (c.1.id_hash, c.1) ∈ s.prov.store.tokens
  revEq : s.prov.store.revocations =
    s.deletions.map (fun d => revokeEntryOf d.1)

theorem initState_inv (cfg : Config) (digest : DigestFn) (now : Nat) :
    Inv cfg digest now initState := by
  constructor <;> simp [initState, emptyStore, userTokenList, getEntry]

theorem create_inv {cfg : Config} {digest : DigestFn} {now : Nat}
    {s : TraceState} {t : Nat} {tid : String} {d : TokenData}
    {r : TokenRecord} {st : Store}
    (hi : Inv cfg digest now s) (ht : t ≤ now)
    (hf : ∀ c ∈ s.creations, c.1.id_hash ≠ hashTokenId cfg digest tid)
    (hok : createToken cfg digest t tid d s.prov.store = .ok (r, st)) :
    Inv cfg digest now
      ⟨⟨st, s.prov.revCache⟩, s.creations ++ [(r, t)], s.deletions⟩ := by
  obtain ⟨hfr, hre, hse⟩ := createToken_ok_inv hok
  subst hre
  subst hse
  have hfresh : ∀ p ∈ s.prov.store.tokens, p.1 ≠ hashTokenId cfg digest tid :=
    lookupToken_eq_none.mp hfr
  have hkeynot : hashTokenId cfg digest tid ∉
      s.prov.store.tokens.map Prod.fst := by
    intro hk
    obtain ⟨p, hp, hpk⟩ := List.mem_map.mp hk
    exact hfresh p hp hpk
  constructor
  · -- wfKeys
    intro p hp
    rw [insertToken_tokens, List.mem_append] at hp
    rcases hp with hp | hp
    · exact hi.wfKeys p hp
    · simp only [List.mem_singleton] at hp
      subst hp
      exact ⟨by simp, by simp⟩
  · -- keysNodup
    rw [insertToken_tokens, List.map_append]
    simp only [List.map_cons, List.map_nil]
    rw [List.nodup_append]
    refine ⟨hi.keysNodup, List.nodup_singleton _, ?_⟩
    intro a ha hb
    simp only [List.mem_singleton] at hb
    subst hb
    exact hkeynot ha
  · -- storedNotDeleted
    intro p hp dl hdl
    rw [insertToken_tokens, List.mem_append] at hp
    rcases hp with hp | hp
    · exact hi.storedNotDeleted p hp dl hdl
    · simp only [List.mem_singleton] at hp
      subst hp
      obtain ⟨c, hc, hcd⟩ := hi.deletionsCreated dl hdl
      intro hcontra
      exact hf c hc (by rw [hcd, hcontra])
  · -- deletionsCreated
    intro dl hdl
    obtain ⟨c, hc, hcd⟩ := hi.deletionsCreated dl hdl
    exact ⟨c, List.mem_append_left _ hc, hcd⟩
  · -- creationsHash
    intro c hc
    rw [List.mem_append] at hc
    rcases hc with hc | hc
    · exact hi.creationsHash c hc
    · simp only [List.mem_singleton] at hc
      subst hc
      simp
  · -- creationsNodup
    rw [List.map_append]
    simp only [List.map_cons, List.map_nil]
    rw [List.nodup_append]
    refine ⟨hi.creationsNodup, List.nodup_singleton _, ?_⟩
    intro a ha hb
    simp only [List.mem_singleton] at hb
    subst hb
    obtain ⟨c, hc, hck⟩ := List.mem_map.mp ha
    exact hf c hc (by simpa using hck)
  · -- storedCreated
    intro p hp
    rw [insertToken_tokens, List.mem_append] at hp
    rcases hp with hp | hp
    · obtain ⟨c, hc, hcp⟩ := hi.storedCreated p hp
      exact ⟨c, List.mem_append_left _ hc, hcp⟩
    · simp only [List.mem_singleton] at hp
      subst hp
      exact ⟨(mkTokenRecord cfg digest t tid d, t),
        List.mem_append_right _ (by simp), rfl⟩
  · -- idxComplete
    intro p hp hu
    rw [insertToken_tokens, List.mem_append] at hp
    rcases hp with hp | hp
    · have hih := hi.idxComplete p hp hu
      by_cases huser : p.2.user_id = d.user_id
      · rw [huser, insertToken_userTokenList_same]
        apply List.mem_append_left
        rw [List.mem_filter]
        refine ⟨by rw [← huser]; exact hih, ?_⟩
        unfold keepIndexEntry
        rw [Bool.and_eq_true]
        constructor
        · rw [unexpired_not_past hu ht]
          rfl
        · have hhash : hashTokenId cfg digest p.2.id = p.1 :=
            (hi.wfKeys p hp).1.symm
          simp only [hhash, Bool.not_eq_true']
          rw [revokedIds, hi.revEq]
          by_contra hcontra
          simp only [Bool.not_eq_false] at hcontra
          rw [List.contains_iff_exists_mem_beq] at hcontra
          obtain ⟨x, hx, hxb⟩ := hcontra
          rw [List.map_map] at hx
          obtain ⟨dl, hdl, hdx⟩ := List.mem_map.mp hx
          have hx1 : p.1 = x := by simpa using hxb
          apply hi.storedNotDeleted p hp dl hdl
          rw [hx1]
          simpa [revokeEntryOf] using hdx
      · rw [insertToken_userTokenList_other huser]
        exact hih
    · simp only [List.mem_singleton] at hp
      subst hp
      simp only [mkTokenRecord_user_id, mkTokenRecord_id, mkTokenRecord_expires]
      rw [insertToken_userTokenList_same]
      apply List.mem_append_right
      simp
  · -- idxSound
    intro uid q hq
    by_cases huser : uid = d.user_id
    · subst huser
      rw [insertToken_userTokenList_same, List.mem_append] at hq
      rcases hq with hq | hq
      · obtain ⟨c, hc, hcq⟩ :=
          hi.idxSound d.user_id _ (List.mem_filter.mp hq).1
        exact ⟨c, List.mem_append_left _ hc, hcq⟩
      · simp only [List.mem_singleton] at hq
        subst hq
        exact ⟨(mkTokenRecord cfg digest t tid d, t),
          List.mem_append_right _ (by simp), by simp⟩
    · rw [insertToken_userTokenList_other huser] at hq
      obtain ⟨c, hc, hcq⟩ := hi.idxSound uid q hq
      exact ⟨c, List.mem_append_left _ hc, hcq⟩
  · -- liveStored
    intro c hc hnd
    rw [List.mem_append] at hc
    rcases hc with hc | hc
    · have := hi.liveStored c hc (fun dl hdl => hnd dl hdl)
      rw [insertToken_tokens]
      exact List.mem_append_left _ this
    · simp only [List.mem_singleton] at hc
      subst hc
      rw [insertToken_tokens]
      apply List.mem_append_right
      simp
  · -- revEq
    rw [insertToken_revocations]
    exact hi.revEq

theorem delete_inv {cfg : Config} {digest : DigestFn} {now : Nat}
    {s : TraceState} {t : Nat} {tid : String} {r : TokenRecord} {st : Store}
    (cache : Option (List RevokedEntry))
    (hi : Inv cfg digest now s)
    (hok : deleteToken cfg digest tid s.prov.store = .ok (r, st)) :
    Inv cfg digest now
      ⟨⟨st, cache⟩, s.creations, s.deletions ++ [(r, t)]⟩ := by
  obtain ⟨hl, hse⟩ := deleteToken_ok_inv hok
  subst hse
  have hmem : (hashTokenId cfg digest tid, r) ∈ s.prov.store.tokens :=
    lookupToken_mem hl
  have hwf := hi.wfKeys _ hmem
  have hkey_id : hashTokenId cfg digest tid = hashTokenId cfg digest r.id := hwf.1
  have hrhash : r.id_hash = hashTokenId cfg digest tid := hwf.2
  have hmem_filter : ∀ p, p ∈ (deletedStore cfg digest tid s.prov.store r).tokens →
      p ∈ s.prov.store.tokens ∧ p.1 ≠ hashTokenId cfg digest tid := by
    intro p hp
    rw [deletedStore_tokens, List.mem_filter] at hp
    exact ⟨hp.1, by simpa using hp.2⟩
  constructor
  · -- wfKeys
    intro p hp
    exact hi.wfKeys p (hmem_filter p hp).1
  · -- keysNodup
    rw [deletedStore_tokens]
    exact hi.keysNodup.sublist (List.Sublist.map _ (List.filter_sublist _))
  · -- storedNotDeleted
    intro p hp dl hdl
    obtain ⟨hpT, hpk⟩ := hmem_filter p hp
    rw [List.mem_append] at hdl
    rcases hdl with hdl | hdl
    · exact hi.storedNotDeleted p hpT dl hdl
    · simp only [List.mem_singleton] at hdl
      subst hdl
      simp only
      rw [hrhash]
      exact fun hcontra => hpk hcontra.symm
  · -- deletionsCreated
    intro dl hdl
    rw [List.mem_append] at hdl
    rcases hdl with hdl | hdl
    · exact hi.deletionsCreated dl hdl
    · simp only [List.mem_singleton] at hdl
      subst hdl
      exact hi.storedCreated _ hmem
  · -- creationsHash
    exact hi.creationsHash
  · -- creationsNodup
    exact hi.creationsNodup
  · -- storedCreated
    intro p hp
    exact hi.storedCreated p (hmem_filter p hp).1
  · -- idxComplete
    intro p hp hu
    obtain ⟨hpT, hpk⟩ := hmem_filter p hp
    have hih := hi.idxComplete p hpT hu
    by_cases huser : p.2.user_id = r.user_id
    · rw [huser, deletedStore_userTokenList_same]
      rw [List.mem_filter]
      refine ⟨by rw [← huser]; exact hih, ?_⟩
      have hid : p.2.id ≠ r.id := by
        intro hcontra
        apply hpk
        rw [(hi.wfKeys p hpT).1, hcontra, ← hkey_id]
      simpa using hid
    · rw [deletedStore_userTokenList_other huser]
      exact hih
  · -- idxSound
    intro uid q hq
    by_cases huser : uid = r.user_id
    · subst huser
      rw [deletedStore_userTokenList_same] at hq
      exact hi.idxSound r.user_id q (List.mem_filter.mp hq).1
    · rw [deletedStore_userTokenList_other huser] at hq
      exact hi.idxSound uid q hq
  · -- liveStored
    intro c hc hnd
    have hold : ∀ dl ∈ s.deletions, dl.1.id_hash ≠ c.1.id_hash :=
      fun dl hdl => hnd dl (List.mem_append_left _ hdl)
    have hstored := hi.liveStored c hc hold
    have hnew : r.id_hash ≠ c.1.id_hash :=
      hnd (r, t) (List.mem_append_right _ (by simp))
    rw [deletedStore_tokens, List.mem_filter]
    refine ⟨hstored, ?_⟩
    have : c.1.id_hash ≠ hashTokenId cfg digest tid := by
      rw [← hrhash]
      exact fun h => hnew h.symm
    simpa using this
  · -- revEq
    rw [deletedStore_revocations, hi.revEq, List.map_append]
    rfl

theorem stepOp_inv {cfg : Config} {digest : DigestFn} {now : Nat}
    {s : TraceState} {op : Op}
    (hi : Inv cfg digest now s) (ht : opTime op ≤ now)
    (hf : ∀ t id d, op = Op.create t id d →
      ∀ c ∈ s.creations, c.1.id_hash ≠ hashTokenId cfg digest id) :
    Inv cfg digest now (stepOp cfg digest s op) := by
  cases op with
  | create t id d =>
    simp only [stepOp]
    cases hok : createToken cfg digest t id d s.prov.store with
    | ok v =>
      obtain ⟨r, st⟩ := v
      exact create_inv hi (by simpa [opTime] using ht)
        (hf t id d rfl) hok
    | error e => exact hi
  | deleteMgr t id =>
    simp only [stepOp, managerDeleteToken]
    cases hok : deleteToken cfg digest id s.prov.store with
    | ok v =>
      obtain ⟨r, st⟩ := v
      exact delete_inv none hi hok
    | error e => exact hi
  | deleteDrv t id =>
    simp only [stepOp, driverDeleteToken]
    cases hok : deleteToken cfg digest id s.prov.store with
    | ok v =>
      obtain ⟨r, st⟩ := v
      exact delete_inv s.prov.revCache hi hok
    | error e => exact hi
  | invalidate =>
    obtain ⟨⟨store, cache⟩, cs, ds⟩ := s
    exact { hi with }
  | readRevoked t =>
    obtain ⟨⟨store, cache⟩, cs, ds⟩ := s
    cases cache with
    | some l => exact { hi with }
    | none => exact { hi with }

theorem opCreateHashes_cons_create (cfg : Config) (digest : DigestFn)
    (t : Nat) (id : String) (d : TokenData) (rest : List Op) :
    opCreateHashes cfg digest (Op.create t id d :: rest) =
      hashTokenId cfg digest id :: opCreateHashes cfg digest rest := rfl

theorem opCreateHashes_sublist (cfg : Config) (digest : DigestFn)
    (op : Op) (rest : List Op) :
    (opCreateHashes cfg digest rest).Sublist
      (opCreateHashes cfg digest (op :: rest)) := by
  cases op with
  | create t id d =>
    rw [opCreateHashes_cons_create]
    exact List.sublist_cons_self _ _
  | deleteMgr t id => exact List.Sublist.refl _
  | deleteDrv t id => exact List.Sublist.refl _
  | invalidate => exact List.Sublist.refl _
  | readRevoked t => exact List.Sublist.refl _

theorem stepOp_creations_sub (cfg : Config) (digest : DigestFn)
    (s : TraceState) (op : Op) :
    ∀ c ∈ (stepOp cfg digest s op).creations,
      c ∈ s.creations ∨
        ∃ t id d, op = Op.create t id d ∧
          c.1.id_hash = hashTokenId cfg digest id := by
  intro c hc
  cases op with
  | create t id d =>
    revert hc
    simp only [stepOp]
    cases hok : createToken cfg digest t id d s.prov.store with
    | ok v =>
      obtain ⟨r, st⟩ := v
      intro hc
      have hc' : c ∈ s.creations ++ [(r, t)] := hc
      rw [List.mem_append] at hc'
      rcases hc' with hc' | hc'
      · exact Or.inl hc'
      · simp only [List.mem_singleton] at hc'
        subst hc'
        right
        refine ⟨t, id, d, rfl, ?_⟩
        rw [(createToken_ok_inv hok).2.1]
        simp
    | error e =>
      intro hc
      exact Or.inl hc
  | deleteMgr t id =>
    revert hc
    simp only [stepOp, managerDeleteToken]
    cases hok : deleteToken cfg digest id s.prov.store with
    | ok v =>
      obtain ⟨r, st⟩ := v
      intro hc
      exact Or.inl hc
    | error e =>
      intro hc
      exact Or.inl hc
  | deleteDrv t id =>
    revert hc
    simp only [stepOp, driverDeleteToken]
    cases hok : deleteToken cfg digest id s.prov.store with
    | ok v =>
      obtain ⟨r, st⟩ := v
      intro hc
      exact Or.inl hc
    | error e =>
      intro hc
      exact Or.inl hc
  | invalidate => exact Or.inl hc
  | readRevoked t => exact Or.inl hc

theorem foldl_inv (cfg : Config) (digest : DigestFn) (now : Nat) :
    ∀ (ops : List Op) (s : TraceState),
      Inv cfg digest now s →
      (opCreateHashes cfg digest ops).Nodup →
      (∀ k ∈ opCreateHashes cfg digest ops, ∀ c ∈ s.creations,
        c.1.id_hash ≠ k) →
      (∀ op ∈ ops, opTime op ≤ now) →
      Inv cfg digest now (ops.foldl (stepOp cfg digest) s) := by
  intro ops
  induction ops with
  | nil =>
    intro s hi _ _ _
    exact hi
  | cons op rest ih =>
    intro s hi hnd hfr ht
    rw [List.foldl_cons]
    have hsubl := opCreateHashes_sublist cfg digest op rest
    have hstep : Inv cfg digest now (stepOp cfg digest s op) := by
      apply stepOp_inv hi (ht op (List.mem_cons_self _ _))
      intro t id d hop c hc
      apply hfr (hashTokenId cfg digest id) ?_ c hc
      subst hop
      rw [opCreateHashes_cons_create]
      exact List.mem_cons_self _ _
    apply ih (stepOp cfg digest s op) hstep
    · exact hnd.sublist hsubl
    · intro k hk c hc
      rcases stepOp_creations_sub cfg digest s op c hc with hcs |
        ⟨t, id, d, hop, hch⟩
      · exact hfr k (hsubl.subset hk) c hcs
      · subst hop
        rw [hch]
        intro hcontra
        rw [opCreateHashes_cons_create] at hnd
        rw [← hcontra] at hk
        exact (List.nodup_cons.mp hnd).1 hk
    · intro o ho
      exact ht o (List.mem_cons_of_mem _ ho)

theorem runOps_inv (cfg : Config) (digest : DigestFn) (now : Nat)
    (ops : List Op)
    (hnd : (opCreateHashes cfg digest ops).Nodup)
    (ht : ∀ op ∈ ops, opTime op ≤ now) :
    Inv cfg digest now (runOps cfg digest ops) := by
  apply foldl_inv cfg digest now ops initState (initState_inv cfg digest now)
    hnd _ ht
  intro k _ c hc
  simp [initState] at hc

/-- The revocation bookkeeping invariant: the persisted revocation entries
are the image of the ghost deletion log, and every recorded deletion
happened no later than `now`. -/
def RevInv (now : Nat) (s : TraceState) : Prop :=
  s.prov.store.revocations = s.deletions.map (fun d => revokeEntryOf d.1) ∧
  ∀ d ∈ s.deletions, d.2 ≤ now

theorem stepOp_revinv {cfg : Config} {digest : DigestFn} {now : Nat}
    {s : TraceState} {op : Op}
    (h : RevInv now s) (ht : opTime op ≤ now) :
    RevInv now (stepOp cfg digest s op) := by
  obtain ⟨h1, h2⟩ := h
  cases op with
  | create t id d =>
    simp only [stepOp]
    cases hok : createToken cfg digest t id d s.prov.store with
    | ok v =>
      obtain ⟨r, st⟩ := v
      refine ⟨?_, h2⟩
      have hst := (createToken_ok_inv hok).2.2
      subst hst
      rw [insertToken_revocations]
      exact h1
    | error e => exact ⟨h1, h2⟩
  | deleteMgr t id =>
    simp only [stepOp, managerDeleteToken]
    cases hok : deleteToken cfg digest id s.prov.store with
    | ok v =>
      obtain ⟨r, st⟩ := v
      have hst := (deleteToken_ok_inv hok).2
      subst hst
      constructor
      · show (deletedStore cfg digest id s.prov.store r).revocations = _
        rw [deletedStore_revocations, h1, List.map_append]
        rfl
      · intro dl hdl
        have hdl' : dl ∈ s.deletions ++ [(r, t)] := hdl
        rw [List.mem_append] at hdl'
        rcases hdl' with hdl' | hdl'
        · exact h2 dl hdl'
        · simp only [List.mem_singleton] at hdl'
          subst hdl'
          exact ht
    | error e => exact ⟨h1, h2⟩
  | deleteDrv t id =>
    simp only [stepOp, driverDeleteToken]
    cases hok : deleteToken cfg digest id s.prov.store with
    | ok v =>
      obtain ⟨r, st⟩ := v
      have hst := (deleteToken_ok_inv hok).2
      subst hst
      constructor
      · show (deletedStore cfg digest id s.prov.store r).revocations = _
        rw [deletedStore_revocations, h1, List.map_append]
        rfl
      · intro dl hdl
        have hdl' : dl ∈ s.deletions ++ [(r, t)] := hdl
        rw [List.mem_append] at hdl'
        rcases hdl' with hdl' | hdl'
        · exact h2 dl hdl'
        · simp only [List.mem_singleton] at hdl'
          subst hdl'
          exact ht
    | error e => exact ⟨h1, h2⟩
  | invalidate => exact ⟨h1, h2⟩
  | readRevoked t =>
    refine ⟨?_, h2⟩
    show ((providerListRevokedTokens t s.prov).2).store.revocations = _
    rw [providerListRevoked_store]
    exact h1

theorem foldl_revinv (cfg : Config) (digest : DigestFn) (now : Nat) :
    ∀ (ops : List Op) (s : TraceState), RevInv now s →
      (∀ op ∈ ops, opTime op ≤ now) →
      RevInv now (ops.foldl (stepOp cfg digest) s) := by
  intro ops
  induction ops with
  | nil =>
    intro s h _
    exact h
  | cons op rest ih =>
    intro s h ht
    rw [List.foldl_cons]
    exact ih (stepOp cfg digest s op)
      (stepOp_revinv h (ht op (List.mem_cons_self _ _)))
      (fun o ho => ht o (List.mem_cons_of_mem _ ho))

theorem runOps_revinv (cfg : Config) (digest : DigestFn) (now : Nat)
    (ops : List Op) (ht : ∀ op ∈ ops, opTime op ≤ now) :
    RevInv now (runOps cfg digest ops) :=
  foldl_revinv cfg digest now ops initState ⟨rfl, by simp [initState]⟩ ht

/-- Configuration used by the concrete witness scenarios. -/
def cfgW : Config := ⟨100, HashAlg.md5⟩

/-- Digest function used by the concrete witness scenarios. -/
def dgW : DigestFn := fun _ _ => "dg"

/-- Token data used by the concrete witness scenarios. -/
def dW : TokenData := ⟨"u", none, none, none, "a", "p"⟩

/-- C1: for every state reached by a sequence of create/delete operations,
the provider's `list_revoked_tokens`, read after `invalidate_revocation_list`,
returns in membership and order exactly the ids of the persisted revocation
entries (the persistence layer's `list_revoked_tokens`), and those ids are
exactly the `id_hash`es of the tokens that were deleted before their
natural expiry and are not yet past their `expires`. -/
theorem revocation_list_exact (cfg : Config) (digest : DigestFn)
    (ops : List Op) (now : Nat)
    (ht : ∀ op ∈ ops, opTime op ≤ now) :
    ((providerListRevokedTokens now
        (invalidateRevocationList (runOps cfg digest ops).prov)).1.map
          (fun e => e.id) =
      (listRevokedTokens now (runOps cfg digest ops).prov.store).map
        (fun e => e.id)) ∧
    ((listRevokedTokens now (runOps cfg digest ops).prov.store).map
        (fun e => e.id) =
      ((runOps cfg digest ops).deletions.filter
        (fun d => unexpired now d.1.expires)).map (fun d => d.1.id_hash)) ∧
    (∀ d ∈ (runOps cfg digest ops).deletions,
      unexpired now d.1.expires = true → deletedBeforeExpiry d = true) := by
  have hrev := runOps_revinv cfg digest now ops ht
  refine ⟨?_, ?_, ?_⟩
  · simp [providerListRevokedTokens, invalidateRevocationList]
  · rw [listRevokedTokens, hrev.1, List.filter_map, List.map_map]
    rfl
  · intro d hd hu
    have htd := hrev.2 d hd
    cases he : d.1.expires with
    | none => simp [deletedBeforeExpiry, he]
    | some e =>
      rw [he] at hu
      simp only [unexpired, decide_eq_true_eq] at hu
      simp only [deletedBeforeExpiry, he, decide_eq_true_eq]
      omega

/-- Concrete instance of C1: create a token at time 0, delete it through
the manager at time 1, observe at time 2. -/
theorem revocation_list_exact_witness :
    (∀ op ∈ [Op.create 0 "t" dW, Op.deleteMgr 1 "t"], opTime op ≤ 2) ∧
    (((providerListRevokedTokens 2
        (invalidateRevocationList
          (runOps cfgW dgW [Op.create 0 "t" dW, Op.deleteMgr 1 "t"]).prov)).1.map
          (fun e => e.id) =
      (listRevokedTokens 2
        (runOps cfgW dgW [Op.create 0 "t" dW, Op.deleteMgr 1 "t"]).prov.store).map
        (fun e => e.id)) ∧
    ((listRevokedTokens 2
        (runOps cfgW dgW [Op.create 0 "t" dW, Op.deleteMgr 1 "t"]).prov.store).map
        (fun e => e.id) =
      ((runOps cfgW dgW [Op.create 0 "t" dW, Op.deleteMgr 1 "t"]).deletions.filter
        (fun d => unexpired 2 d.1.expires)).map (fun d => d.1.id_hash)) ∧
    (∀ d ∈ (runOps cfgW dgW [Op.create 0 "t" dW, Op.deleteMgr 1 "t"]).deletions,
      unexpired 2 d.1.expires = true → deletedBeforeExpiry d = true)) :=
  ⟨by decide, revocation_list_exact cfgW dgW _ 2 (by decide)⟩

/-- C2: for every sequence of create/delete operations whose created ids
have pairwise distinct storage keys, and at every point (every prefix is
itself such a sequence), `list_tokens(user)` contains a token id exactly
when that id was created for that user, has not been deleted, and has not
passed its `expires` — tokens with an explicitly null tenant included,
since the tenant field is unconstrained. -/
theorem token_list_exact (cfg : Config) (digest : DigestFn) (ops : List Op)
    (now : Nat) (U tid : String)
    (hnd : (opCreateHashes cfg digest ops).Nodup)
    (ht : ∀ op ∈ ops, opTime op ≤ now) :
    tid ∈ listTokens cfg digest now U none none
        (runOps cfg digest ops).prov.store ↔
      ∃ c ∈ (runOps cfg digest ops).creations,
        c.1.id = tid ∧ c.1.user_id = U ∧ unexpired now c.1.expires = true ∧
        ∀ d ∈ (runOps cfg digest ops).deletions, d.1.id ≠ tid := by
  have hi := runOps_inv cfg digest now ops hnd ht
  constructor
  · intro hmem
    unfold listTokens at hmem
    rw [List.mem_filterMap] at hmem
    obtain ⟨q, hq, hfq⟩ := hmem
    cases hl : lookupToken (runOps cfg digest ops).prov.store
        (hashTokenId cfg digest q.1) with
    | none =>
      rw [hl] at hfq
      simp at hfq
    | some r =>
      rw [hl] at hfq
      by_cases hcond : (unexpired now r.expires && r.user_id == U
          && tenantMatches none r && trustMatches none r) = true
      · simp only [hcond, if_true, Option.some.injEq] at hfq
        rw [Bool.and_eq_true, Bool.and_eq_true, Bool.and_eq_true] at hcond
        have hunexp : unexpired now r.expires = true := hcond.1.1.1
        have huser : r.user_id = U := by
          have := hcond.1.1.2
          simpa using this
        have hmemT := lookupToken_mem hl
        obtain ⟨c, hc, hcq⟩ := hi.idxSound U q hq
        obtain ⟨c', hc', hc'r⟩ := hi.storedCreated _ hmemT
        have hwfT := hi.wfKeys _ hmemT
        have hcc' : c = c' := by
          apply List.inj_on_of_nodup_map hi.creationsNodup hc hc'
          rw [hi.creationsHash c hc, hi.creationsHash c' hc', hcq, hc'r]
          rw [← hwfT.1]
        refine ⟨c, hc, ?_, ?_, ?_, ?_⟩
        · rw [hcq, hfq]
        · rw [hcc', hc'r, huser]
        · rw [hcc', hc'r]
          exact hunexp
        · intro d hd hdid
          obtain ⟨cd, hcd, hcdd⟩ := hi.deletionsCreated d hd
          apply hi.storedNotDeleted _ hmemT d hd
          rw [← hcdd, hi.creationsHash cd hcd, hcdd, hdid, hfq]
      · simp only [Bool.not_eq_true] at hcond
        simp only [hcond] at hfq
        simp at hfq
  · intro hex
    obtain ⟨c, hc, hid, huser, hunexp, hnotdel⟩ := hex
    have hkey : c.1.id_hash = hashTokenId cfg digest tid := by
      rw [hi.creationsHash c hc, hid]
    have hnodel : ∀ d ∈ (runOps cfg digest ops).deletions,
        d.1.id_hash ≠ c.1.id_hash := by
      intro d hd hcontra
      obtain ⟨cd, hcd, hcdd⟩ := hi.deletionsCreated d hd
      have hcdc : cd = c := by
        apply List.inj_on_of_nodup_map hi.creationsNodup hcd hc
        rw [hcdd, hcontra]
      apply hnotdel d hd
      rw [← hcdd, hcdc, hid]
    have hstored := hi.liveStored c hc hnodel
    have hpair := hi.idxComplete _ hstored hunexp
    simp only at hpair
    rw [huser, hid] at hpair
    unfold listTokens
    rw [List.mem_filterMap]
    refine ⟨(tid, c.1.expires), hpair, ?_⟩
    have hlk : lookupToken (runOps cfg digest ops).prov.store
        (hashTokenId cfg digest tid) = some c.1 := by
      rw [← hkey]
      exact lookupToken_of_mem_nodup hi.keysNodup hstored
    rw [hlk]
    have hb : (unexpired now c.1.expires && c.1.user_id == U
        && tenantMatches none c.1 && trustMatches none c.1) = true := by
      rw [Bool.and_eq_true, Bool.and_eq_true, Bool.and_eq_true]
      refine ⟨⟨⟨hunexp, ?_⟩, rfl⟩, rfl⟩
      simp [huser]
    simp [hb]

theorem mem_listRevoked_deleted {cfg : Config} {digest : DigestFn}
    {tid : String} {s : Store} {r : TokenRecord} {now : Nat}
    (hu : unexpired now r.expires = true) :
    r.id_hash ∈ (listRevokedTokens now
      (deletedStore cfg digest tid s r)).map (fun e => e.id) := by
  unfold listRevokedTokens
  rw [deletedStore_revocations]
  apply List.mem_map.mpr
  refine ⟨revokeEntryOf r, ?_, rfl⟩
  rw [List.mem_filter]
  exact ⟨List.mem_append_right _ (by simp), hu⟩

/-- Token record used by the concrete witness scenarios: a UUID-style
token of user `u` expiring at time 100. -/
def rW : TokenRecord := ⟨"t", "t", "u", none, none, some 100, "a", "p"⟩

/-- Store used by the concrete witness scenarios: it holds `rW` with a
matching user-index pair and no revocation entries. -/
def storeW : Store := ⟨[("t", rW)], [("u", [("t", some 100)])], []⟩

/-- Provider state used by the concrete witness scenarios: `storeW` with
the revocation-list cache primed with the empty list. -/
def pW : ProviderState := ⟨storeW, some []⟩

/-- C3: with the revocation cache primed, a delete issued directly at the
storage driver succeeds but leaves the provider's next
`list_revoked_tokens` at the stale cached value; after
`invalidate_revocation_list` the next read includes the deleted token's
id; and a delete issued through the manager invalidates synchronously, so
the next read includes the id with no explicit invalidation call. -/
theorem revocation_cache_staleness (cfg : Config) (digest : DigestFn)
    (p : ProviderState) (now : Nat) (tid : String)
    (L : List RevokedEntry) (r : TokenRecord)
    (hc : p.revCache = some L)
    (hs : lookupToken p.store (hashTokenId cfg digest tid) = some r)
    (hu : unexpired now r.expires = true) :
    (∃ p', driverDeleteToken cfg digest tid p = .ok (r, p')) ∧
    (∀ p', driverDeleteToken cfg digest tid p = .ok (r, p') →
      (providerListRevokedTokens now p').1 = L ∧
      r.id_hash ∈ ((providerListRevokedTokens now
        (invalidateRevocationList p')).1.map (fun e => e.id))) ∧
    (∀ p2, managerDeleteToken cfg digest tid p = .ok (r, p2) →
      r.id_hash ∈ ((providerListRevokedTokens now p2).1.map
        (fun e => e.id))) := by
  have hdel := deleteToken_some hs
  refine ⟨?_, ?_, ?_⟩
  · refine ⟨⟨deletedStore cfg digest tid p.store r, p.revCache⟩, ?_⟩
    unfold driverDeleteToken
    rw [hdel]
  · intro p' heq
    unfold driverDeleteToken at heq
    rw [hdel] at heq
    have hp' : p' = ⟨deletedStore cfg digest tid p.store r, p.revCache⟩ := by
      have := Except.ok.inj heq
      exact ((Prod.mk.injEq _ _ _ _ ▸ this).2).symm
    subst hp'
    constructor
    · show (providerListRevokedTokens now
        ⟨deletedStore cfg digest tid p.store r, p.revCache⟩).1 = L
      rw [providerListRevokedTokens]
      simp only [hc]
    · rw [invalidateRevocationList]
      simp only [providerListRevokedTokens]
      exact mem_listRevoked_deleted hu
  · intro p2 heq
    unfold managerDeleteToken at heq
    rw [hdel] at heq
    have hp2 : p2 = ⟨deletedStore cfg digest tid p.store r, none⟩ := by
      have := Except.ok.inj heq
      exact ((Prod.mk.injEq _ _ _ _ ▸ this).2).symm
    subst hp2
    simp only [providerListRevokedTokens]
    exact mem_listRevoked_deleted hu

/-- Concrete instance of C3: the primed provider `pW` and its token,
observed at time 5. -/
theorem revocation_cache_staleness_witness :
    (pW.revCache = some [] ∧
      lookupToken pW.store (hashTokenId cfgW dgW "t") = some rW ∧
      unexpired 5 rW.expires = true) ∧
    ((∃ p', driverDeleteToken cfgW dgW "t" pW = .ok (rW, p')) ∧
    (∀ p', driverDeleteToken cfgW dgW "t" pW = .ok (rW, p') →
      (providerListRevokedTokens 5 p').1 = [] ∧
      rW.id_hash ∈ ((providerListRevokedTokens 5
        (invalidateRevocationList p')).1.map (fun e => e.id))) ∧
    (∀ p2, managerDeleteToken cfgW dgW "t" pW = .ok (rW, p2) →
      rW.id_hash ∈ ((providerListRevokedTokens 5 p2).1.map
        (fun e => e.id)))) :=
  ⟨⟨by decide, by decide, by decide⟩,
    revocation_cache_staleness cfgW dgW pW 5 "t" [] rW
      (by decide) (by decide) (by decide)⟩

/-- A PKI-style (long) token id used by the concrete witness scenarios. -/
def tidPkiW : String :=
  "MIIaaaaaaaaaaaaaaaaaaaaaaaaaaaaaaaaaaaaaaaaaaaaaaaaaaaaaaaaaaaaaaaaaaaa"

theorem dgW_len (a : HashAlg) (str : String) :
    (dgW a str).length ≤ pkiIdThreshold := by
  show ("dg" : String).length ≤ pkiIdThreshold
  decide

/-- C4: creating and then deleting a token through the manager records a
revocation entry whose id is the configured digest of the raw id for a
PKI-style (long) token — never the raw id itself, since the digest output
fits the key-length limit — and the raw id itself for a UUID-style token;
the entry carries the token's always-present `expires`, and its id shows
up in the provider's `list_revoked_tokens`. -/
theorem predictable_revoked_token_id (cfg : Config) (digest : DigestFn)
    (p : ProviderState) (t1 now : Nat) (tid : String) (d : TokenData)
    (hfresh : lookupToken p.store (hashTokenId cfg digest tid) = none)
    (hlen : ∀ a str, (digest a str).length ≤ pkiIdThreshold) :
    ∃ r st p2,
      createToken cfg digest t1 tid d p.store = .ok (r, st) ∧
      managerDeleteToken cfg digest tid ⟨st, p.revCache⟩ = .ok (r, p2) ∧
      r.expires.isSome = true ∧
      (revokeEntryOf r).expires = r.expires ∧
      (unexpired now r.expires = true →
        r.id_hash ∈ ((providerListRevokedTokens now p2).1.map
          (fun e => e.id))) ∧
      (isPkiTokenId tid = true →
        r.id_hash = digest cfg.hashAlgorithm tid ∧ r.id_hash ≠ tid) ∧
      (isPkiTokenId tid = false → r.id_hash = tid) := by
  have hlk : lookupToken ⟨(insertToken cfg digest t1 tid d p.store).tokens,
      (insertToken cfg digest t1 tid d p.store).userIndex,
      (insertToken cfg digest t1 tid d p.store).revocations⟩
      (hashTokenId cfg digest tid) = some (mkTokenRecord cfg digest t1 tid d) := by
    apply lookupToken_append (s := p.store)
    · exact insertToken_tokens cfg digest t1 tid d p.store
    · exact hfresh
  have hlk' : lookupToken (insertToken cfg digest t1 tid d p.store)
      (hashTokenId cfg digest tid) = some (mkTokenRecord cfg digest t1 tid d) := hlk
  refine ⟨mkTokenRecord cfg digest t1 tid d,
    insertToken cfg digest t1 tid d p.store,
    ⟨deletedStore cfg digest tid (insertToken cfg digest t1 tid d p.store)
      (mkTokenRecord cfg digest t1 tid d), none⟩,
    createToken_fresh hfresh, ?_, ?_, rfl, ?_, ?_, ?_⟩
  · unfold managerDeleteToken
    rw [deleteToken_some hlk']
  · cases hde : d.expires with
    | none => simp [normalizeExpires, hde]
    | some e => simp [normalizeExpires, hde]
  · intro hu
    simp only [providerListRevokedTokens]
    exact mem_listRevoked_deleted hu
  · intro hpki
    constructor
    · simp [hashTokenId, hpki]
    · simp only [mkTokenRecord_id_hash, hashTokenId, hpki, if_true]
      intro heq
      have h1 := hlen cfg.hashAlgorithm tid
      have h2 : pkiIdThreshold < tid.length := by
        simpa [isPkiTokenId] using hpki
      have h3 := congrArg String.length heq
      omega
  · intro hpki
    simp [hashTokenId, hpki]

/-- Concrete instance of C4: a 72-character PKI-style id created on the
empty store and deleted through the manager, observed at time 5. -/
theorem predictable_revoked_token_id_witness :
    (lookupToken emptyStore (hashTokenId cfgW dgW tidPkiW) = none) ∧
    (∃ r st p2,
      createToken cfgW dgW 0 tidPkiW dW emptyStore = .ok (r, st) ∧
      managerDeleteToken cfgW dgW tidPkiW ⟨st, none⟩ = .ok (r, p2) ∧
      r.expires.isSome = true ∧
      (revokeEntryOf r).expires = r.expires ∧
      (unexpired 5 r.expires = true →
        r.id_hash ∈ ((providerListRevokedTokens 5 p2).1.map
          (fun e => e.id))) ∧
      (isPkiTokenId tidPkiW = true →
        r.id_hash = dgW cfgW.hashAlgorithm tidPkiW ∧ r.id_hash ≠ tidPkiW) ∧
      (isPkiTokenId tidPkiW = false → r.id_hash = tidPkiW)) :=
  ⟨by decide, predictable_revoked_token_id cfgW dgW ⟨emptyStore, none⟩ 0 5
    tidPkiW dW (by decide) dgW_len⟩

/-- Concrete instance of C2: two creations and one deletion; the surviving
token is listed, at time 2, exactly as the characterization states. -/
theorem token_list_exact_witness :
    ((opCreateHashes cfgW dgW
        [Op.create 0 "t1" dW, Op.create 0 "t2" dW, Op.deleteMgr 1 "t1"]).Nodup ∧
      ∀ op ∈ [Op.create 0 "t1" dW, Op.create 0 "t2" dW, Op.deleteMgr 1 "t1"],
        opTime op ≤ 2) ∧
    ("t2" ∈ listTokens cfgW dgW 2 "u" none none
        (runOps cfgW dgW
          [Op.create 0 "t1" dW, Op.create 0 "t2" dW,
            Op.deleteMgr 1 "t1"]).prov.store ↔
      ∃ c ∈ (runOps cfgW dgW
          [Op.create 0 "t1" dW, Op.create 0 "t2" dW,
            Op.deleteMgr 1 "t1"]).creations,
        c.1.id = "t2" ∧ c.1.user_id = "u" ∧ unexpired 2 c.1.expires = true ∧
        ∀ d ∈ (runOps cfgW dgW
            [Op.create 0 "t1" dW, Op.create 0 "t2" dW,
              Op.deleteMgr 1 "t1"]).deletions, d.1.id ≠ "t2") :=
  ⟨⟨by decide, by decide⟩,
    token_list_exact cfgW dgW _ 2 "u" "t2" (by decide) (by decide)⟩

/-- C5: `delete_tokens` deletes exactly the stored tokens matching every
supplied filter: each such token's `get_token` then fails with
`TokenNotFound`, every non-matching token (other user, other tenant or
other trust) remains retrievable unchanged, and when zero tokens match the
operation succeeds as a no-op. -/
theorem delete_tokens_filters (cfg : Config) (digest : DigestFn) (s : Store)
    (U : String) (ten tr : Option String)
    (hwf : ∀ p ∈ s.tokens, p.1 = hashTokenId cfg digest p.2.id)
    (hnd : (s.tokens.map Prod.fst).Nodup) :
    (∀ p ∈ s.tokens, bulkMatches U ten tr p.2 = true →
      getToken cfg digest p.2.id (deleteTokens U ten tr s) =
        .error .tokenNotFound) ∧
    (∀ p ∈ s.tokens, bulkMatches U ten tr p.2 = false →
      getToken cfg digest p.2.id (deleteTokens U ten tr s) = .ok p.2) ∧
    ((∀ p ∈ s.tokens, bulkMatches U ten tr p.2 = false) →
      deleteTokens U ten tr s = s) := by
  have htok : (deleteTokens U ten tr s).tokens =
      s.tokens.filter (fun p => !(bulkMatches U ten tr p.2)) := rfl
  refine ⟨?_, ?_, ?_⟩
  · intro p hp hm
    have hl : lookupToken s p.1 = some p.2 :=
      lookupToken_of_mem_nodup hnd hp
    have hnone := lookupToken_filtered_drop htok hnd hl (by simp [hm])
    unfold getToken
    rw [← hwf p hp, hnone]
  · intro p hp hm
    have hl : lookupToken s p.1 = some p.2 :=
      lookupToken_of_mem_nodup hnd hp
    have hsome := lookupToken_filtered_keep htok hnd hl (by simp [hm])
    unfold getToken
    rw [← hwf p hp, hsome]
  · intro hall
    have hvic : s.tokens.filter (fun p => bulkMatches U ten tr p.2) = [] := by
      rw [List.filter_eq_nil_iff]
      intro p hp
      simp [hall p hp]
    have hkeep : s.tokens.filter (fun p => !(bulkMatches U ten tr p.2)) =
        s.tokens := by
      rw [List.filter_eq_self]
      intro p hp
      simp [hall p hp]
    obtain ⟨tk, ui, rv⟩ := s
    simp only [deleteTokens] at *
    rw [hvic, hkeep]
    simp

/-- Concrete instance of C5: deleting user `u`'s tokens from `storeW` with
no tenant or trust filter. -/
theorem delete_tokens_filters_witness :
    ((∀ p ∈ storeW.tokens, p.1 = hashTokenId cfgW dgW p.2.id) ∧
      (storeW.tokens.map Prod.fst).Nodup) ∧
    ((∀ p ∈ storeW.tokens, bulkMatches "u" none none p.2 = true →
      getToken cfgW dgW p.2.id (deleteTokens "u" none none storeW) =
        .error .tokenNotFound) ∧
    (∀ p ∈ storeW.tokens, bulkMatches "u" none none p.2 = false →
      getToken cfgW dgW p.2.id (deleteTokens "u" none none storeW) =
        .ok p.2) ∧
    ((∀ p ∈ storeW.tokens, bulkMatches "u" none none p.2 = false) →
      deleteTokens "u" none none storeW = storeW)) :=
  ⟨⟨by decide, by decide⟩,
    delete_tokens_filters cfgW dgW storeW "u" none none
      (by decide) (by decide)⟩

/-- C6: `flush_expired_tokens` removes exactly the stored records, index
pairs and revocation entries whose expiry is strictly in the past at call
time: flushed tokens become `TokenNotFound`, every not-yet-expired token
stays retrievable, `list_tokens` at any later time is unchanged — and the
KV backend instead fails with `NotImplemented`. -/
theorem flush_expired_exact (cfg : Config) (digest : DigestFn) (s : Store)
    (now now2 : Nat)
    (hwf : ∀ p ∈ s.tokens, p.1 = hashTokenId cfg digest p.2.id)
    (hnd : (s.tokens.map Prod.fst).Nodup)
    (hidx : indexExpiryAgrees cfg digest s = true)
    (hle : now ≤ now2) :
    (∀ p ∈ s.tokens, expiryPast now p.2.expires = true →
      getToken cfg digest p.2.id (flushExpiredTokens now s) =
        .error .tokenNotFound) ∧
    (∀ p ∈ s.tokens, expiryPast now p.2.expires = false →
      getToken cfg digest p.2.id (flushExpiredTokens now s) = .ok p.2) ∧
    ((flushExpiredTokens now s).userIndex =
      s.userIndex.map (fun en =>
        (en.1, en.2.filter (fun pr => !(expiryPast now pr.2))))) ∧
    ((flushExpiredTokens now s).revocations =
      s.revocations.filter (fun e => !(expiryPast now e.expires))) ∧
    (∀ uid f g, listTokens cfg digest now2 uid f g (flushExpiredTokens now s) =
      listTokens cfg digest now2 uid f g s) ∧
    kvsFlushExpiredTokens = .error .notImplemented := by
  have htok : (flushExpiredTokens now s).tokens =
      s.tokens.filter (fun p => !(expiryPast now p.2.expires)) := rfl
  refine ⟨?_, ?_, rfl, rfl, ?_, rfl⟩
  · intro p hp hm
    have hl : lookupToken s p.1 = some p.2 :=
      lookupToken_of_mem_nodup hnd hp
    have hnone := lookupToken_filtered_drop htok hnd hl (by simp [hm])
    unfold getToken
    rw [← hwf p hp, hnone]
  · intro p hp hm
    have hl : lookupToken s p.1 = some p.2 :=
      lookupToken_of_mem_nodup hnd hp
    have hsome := lookupToken_filtered_keep htok hnd hl (by simp [hm])
    unfold getToken
    rw [← hwf p hp, hsome]
  · intro uid f g
    unfold listTokens
    have hul : userTokenList (flushExpiredTokens now s) uid =
        (userTokenList s uid).filter (fun pr => !(expiryPast now pr.2)) := by
      unfold userTokenList
      exact getEntry_map_filter uid _ s.userIndex
    rw [hul]
    apply filterMap_filter_congr
    · intro pr _
      cases hl : lookupToken s (hashTokenId cfg digest pr.1) with
      | none =>
        rw [lookupToken_filtered_none htok hl]
      | some r =>
        cases hpast : expiryPast now r.expires with
        | false =>
          rw [lookupToken_filtered_keep htok hnd hl (by simp [hpast])]
        | true =>
          rw [lookupToken_filtered_drop htok hnd hl (by simp [hpast])]
          simp [past_not_unexpired hpast hle]
    · intro pr hpr hkeep
      cases hl : lookupToken s (hashTokenId cfg digest pr.1) with
      | none => rfl
      | some r =>
        have hexp := indexExpiryAgrees_spec hidx uid pr hpr r hl
        have hpast2 : expiryPast now pr.2 = true := by
          simpa using hkeep
        rw [← hexp] at hpast2
        simp [past_not_unexpired hpast2 hle]

/-- Concrete instance of C6: flushing `storeW` at time 50 and listing at
time 60. -/
theorem flush_expired_exact_witness :
    ((∀ p ∈ storeW.tokens, p.1 = hashTokenId cfgW dgW p.2.id) ∧
      (storeW.tokens.map Prod.fst).Nodup ∧
      indexExpiryAgrees cfgW dgW storeW = true ∧ 50 ≤ 60) ∧
    ((∀ p ∈ storeW.tokens, expiryPast 50 p.2.expires = true →
      getToken cfgW dgW p.2.id (flushExpiredTokens 50 storeW) =
        .error .tokenNotFound) ∧
    (∀ p ∈ storeW.tokens, expiryPast 50 p.2.expires = false →
      getToken cfgW dgW p.2.id (flushExpiredTokens 50 storeW) = .ok p.2) ∧
    ((flushExpiredTokens 50 storeW).userIndex =
      storeW.userIndex.map (fun en =>
        (en.1, en.2.filter (fun pr => !(expiryPast 50 pr.2))))) ∧
    ((flushExpiredTokens 50 storeW).revocations =
      storeW.revocations.filter (fun e => !(expiryPast 50 e.expires))) ∧
    (∀ uid f g, listTokens cfgW dgW 60 uid f g (flushExpiredTokens 50 storeW) =
      listTokens cfgW dgW 60 uid f g storeW) ∧
    kvsFlushExpiredTokens = .error .notImplemented) :=
  ⟨⟨by decide, by decide, by decide, by decide⟩,
    flush_expired_exact cfgW dgW storeW 50 60
      (by decide) (by decide) (by decide) (by decide)⟩

/-- C7: after a successful `create_token` of a fresh id, `get_token`
returns exactly the record `create_token` returned, and that record agrees
with the input data on every caller-supplied field, with the
server-assigned `expires` defaulted from the TTL only when absent. -/
theorem create_get_roundtrip (cfg : Config) (digest : DigestFn) (now : Nat)
    (tid : String) (d : TokenData) (s : Store)
    (hfresh : lookupToken s (hashTokenId cfg digest tid) = none) :
    ∃ r st, createToken cfg digest now tid d s = .ok (r, st) ∧
      getToken cfg digest tid st = .ok r ∧
      r.id = tid ∧ r.user_id = d.user_id ∧ r.tenant = d.tenant ∧
      r.trust_id = d.trust_id ∧ r.audit_id = d.audit_id ∧
      r.payload = d.payload ∧
      (d.expires = none → r.expires = some (defaultExpires cfg now)) ∧
      (∀ e, d.expires = some e → r.expires = some e) := by
  refine ⟨mkTokenRecord cfg digest now tid d,
    insertToken cfg digest now tid d s,
    createToken_fresh hfresh, ?_, rfl, rfl, rfl, rfl, rfl, rfl, ?_, ?_⟩
  · unfold getToken
    rw [lookupToken_append (insertToken_tokens cfg digest now tid d s) hfresh]
  · intro hnone
    simp [normalizeExpires, hnone]
  · intro e he
    simp [normalizeExpires, he]

/-- Concrete instance of C7: creating a fresh token on the empty store. -/
theorem create_get_roundtrip_witness :
    (lookupToken emptyStore (hashTokenId cfgW dgW "t7") = none) ∧
    (∃ r st, createToken cfgW dgW 0 "t7" dW emptyStore = .ok (r, st) ∧
      getToken cfgW dgW "t7" st = .ok r ∧
      r.id = "t7" ∧ r.user_id = dW.user_id ∧ r.tenant = dW.tenant ∧
      r.trust_id = dW.trust_id ∧ r.audit_id = dW.audit_id ∧
      r.payload = dW.payload ∧
      (dW.expires = none → r.expires = some (defaultExpires cfgW 0)) ∧
      (∀ e, dW.expires = some e → r.expires = some e)) :=
  ⟨by decide, create_get_roundtrip cfgW dgW 0 "t7" dW emptyStore (by decide)⟩

/-- C8: the first `delete_token` of a stored id succeeds; after it, both
`get_token` and a second `delete_token` fail with `TokenNotFound`; and on
an id whose key is absent (never created), both `get_token` and
`delete_token` fail with `TokenNotFound`. -/
theorem delete_twice_get_notfound (cfg : Config) (digest : DigestFn)
    (tid : String) (s : Store) :
    (∀ r, lookupToken s (hashTokenId cfg digest tid) = some r →
      deleteToken cfg digest tid s =
        .ok (r, deletedStore cfg digest tid s r) ∧
      getToken cfg digest tid (deletedStore cfg digest tid s r) =
        .error .tokenNotFound ∧
      deleteToken cfg digest tid (deletedStore cfg digest tid s r) =
        .error .tokenNotFound) ∧
    (lookupToken s (hashTokenId cfg digest tid) = none →
      getToken cfg digest tid s = .error .tokenNotFound ∧
      deleteToken cfg digest tid s = .error .tokenNotFound) := by
  constructor
  · intro r hr
    refine ⟨deleteToken_some hr, ?_, ?_⟩
    · unfold getToken
      rw [lookupToken_deletedStore]
    · exact deleteToken_none (lookupToken_deletedStore cfg digest tid s r)
  · intro hn
    constructor
    · unfold getToken
      rw [hn]
    · exact deleteToken_none hn

/-- Concrete instance of C8: deleting `storeW`'s token twice, and probing
an id that was never created. -/
theorem delete_twice_get_notfound_witness :
    deleteToken cfgW dgW "t" storeW =
      .ok (rW, deletedStore cfgW dgW "t" storeW rW) ∧
    getToken cfgW dgW "t" (deletedStore cfgW dgW "t" storeW rW) =
      .error .tokenNotFound ∧
    deleteToken cfgW dgW "t" (deletedStore cfgW dgW "t" storeW rW) =
      .error .tokenNotFound ∧
    getToken cfgW dgW "miss" storeW = .error .tokenNotFound ∧
    deleteToken cfgW dgW "miss" storeW = .error .tokenNotFound := by
  have h1 := (delete_twice_get_notfound cfgW dgW "t" storeW).1 rW (by decide)
  have h2 := (delete_twice_get_notfound cfgW dgW "miss" storeW).2 (by decide)
  exact ⟨h1.1, h1.2.1, h1.2.2, h2.1, h2.2⟩

/-- C9 counterexample: creating a token with an explicitly null `expires`
returns a record whose caller-visible `expires` is already the non-null
normalized default — it does not remain null until the token is re-read
(the in-tree `test_null_expires_token` asserts the created reference's
expiry is not null). -/
theorem null_expires_visible_counterexample :
    ((createToken cfgW dgW 0 "t0" dW emptyStore).toOption.map
      (fun x => x.1.expires)) = some (some 100) ∧
    some (some 100) ≠ (some (none : Option Nat)) :=
  ⟨by decide, by decide⟩

/-- C9 (amended): creating a token whose `expires` is explicitly null
succeeds, the null is normalized to the TTL-based default, the record
returned by `create_token` already carries that non-null expiry, and
`get_token` returns the identical record; when no expiry is supplied the
same TTL-based default is assigned. -/
theorem null_expires_normalized (cfg : Config) (digest : DigestFn)
    (now : Nat) (tid : String) (d : TokenData) (s : Store)
    (hnull : d.expires = none)
    (hfresh : lookupToken s (hashTokenId cfg digest tid) = none) :
    ∃ r st, createToken cfg digest now tid d s = .ok (r, st) ∧
      r.expires = some (defaultExpires cfg now) ∧ r.expires ≠ none ∧
      getToken cfg digest tid st = .ok r := by
  refine ⟨_, _, createToken_fresh hfresh, ?_, ?_, ?_⟩
  · simp [normalizeExpires, hnull]
  · simp [normalizeExpires, hnull]
  · unfold getToken
    rw [lookupToken_append (insertToken_tokens cfg digest now tid d s) hfresh]

/-- Concrete instance of C9 (amended): a null-expiry creation on the empty
store. -/
theorem null_expires_normalized_witness :
    (dW.expires = none ∧
      lookupToken emptyStore (hashTokenId cfgW dgW "t9") = none) ∧
    (∃ r st, createToken cfgW dgW 0 "t9" dW emptyStore = .ok (r, st) ∧
      r.expires = some (defaultExpires cfgW 0) ∧ r.expires ≠ none ∧
      getToken cfgW dgW "t9" st = .ok r) :=
  ⟨⟨by decide, by decide⟩,
    null_expires_normalized cfgW dgW 0 "t9" dW emptyStore
      (by decide) (by decide)⟩

/-- C10: on the KV store, a successful `create_token` for user `U`
rewrites `U`'s index entry to the old list with every pair whose recorded
expiry is already past or whose token has been revoked removed — a filter
of the old list, hence a sublist preserving the survivors' relative
order — with the new token's pair appended at the end; other users' index
entries are untouched. -/
theorem create_rewrites_user_index (cfg : Config) (digest : DigestFn)
    (now : Nat) (tid : String) (d : TokenData) (s : Store)
    (hfresh : lookupToken s (hashTokenId cfg digest tid) = none) :
    ∃ r st, createToken cfg digest now tid d s = .ok (r, st) ∧
      userTokenList st d.user_id =
        (userTokenList s d.user_id).filter (fun q =>
          !(expiryPast now q.2) &&
            !((s.revocations.map (fun e => e.id)).contains
              (hashTokenId cfg digest q.1))) ++ [(tid, r.expires)] ∧
      ((userTokenList s d.user_id).filter (fun q =>
          !(expiryPast now q.2) &&
            !((s.revocations.map (fun e => e.id)).contains
              (hashTokenId cfg digest q.1)))).Sublist
        (userTokenList s d.user_id) ∧
      (∀ uid, uid ≠ d.user_id →
        userTokenList st uid = userTokenList s uid) := by
  refine ⟨mkTokenRecord cfg digest now tid d,
    insertToken cfg digest now tid d s, createToken_fresh hfresh,
    ?_, ?_, ?_⟩
  · exact insertToken_userTokenList_same cfg digest now tid d s
  · exact List.filter_sublist _
  · intro uid huid
    exact insertToken_userTokenList_other huid

/-- Store used by the C10 witness: one live token, one index pair already
expired, one index pair whose token has a revocation entry. -/
def storeC10 : Store :=
  ⟨[("t", rW)],
    [("u", [("t", some 100), ("old", some 3), ("gone", some 80)])],
    [⟨"gone", "ag", some 80⟩]⟩

/-- Concrete instance of C10: creating a fresh token for user `u` at time
10 prunes the expired pair and the revoked pair and appends the new one. -/
theorem create_rewrites_user_index_witness :
    (lookupToken storeC10 (hashTokenId cfgW dgW "new") = none) ∧
    (∃ r st, createToken cfgW dgW 10 "new" dW storeC10 = .ok (r, st) ∧
      userTokenList st dW.user_id =
        (userTokenList storeC10 dW.user_id).filter (fun q =>
          !(expiryPast 10 q.2) &&
            !((storeC10.revocations.map (fun e => e.id)).contains
              (hashTokenId cfgW dgW q.1))) ++ [("new", r.expires)] ∧
      ((userTokenList storeC10 dW.user_id).filter (fun q =>
          !(expiryPast 10 q.2) &&
            !((storeC10.revocations.map (fun e => e.id)).contains
              (hashTokenId cfgW dgW q.1)))).Sublist
        (userTokenList storeC10 dW.user_id) ∧
      (∀ uid, uid ≠ dW.user_id →
        userTokenList st uid = userTokenList storeC10 uid)) :=
  ⟨by decide,
    create_rewrites_user_index cfgW dgW 10 "new" dW storeC10 (by decide)⟩

end Keystone
